import Mathlib

/-!
Shallow embedding of `src/python_script_checker_backend/PythonScript_fixed.py`
(a small in-memory user/task manager with JSON persistence), together with
proofs about the spec's claims.

Modelling conventions:
* Python `datetime` values are modelled as `Nat` timestamps in seconds;
  `timedelta(days = d)` is `d * 86400`. `datetime.utcnow()` is passed in as an
  explicit `now : Nat` argument to every operation that reads the clock.
* Python `dict` (which preserves insertion order, has unique keys, and on
  assignment to an existing key replaces the value in place) is modelled as an
  association list `List (Nat × α)` with `dictGet` (first match) and `dictSet`
  (replace in place, else append).
* `raise ValueError(msg)` is modelled as `Except.error msg`; operations that
  can raise return `Except String _`.  The spec's abstract error kinds map to
  the concrete messages: `ValidationError` is `ValueError "Invalid email
  format"`, `NotFoundError` is `ValueError "Invalid owner_id"` /
  `ValueError "Task does not exist"`.
* `random.randint(1, 30)` is modelled as an oracle `rand : Nat → Nat` giving
  the successive values returned by the generator; `randint`'s contract
  (result between 1 and 30 inclusive) becomes a hypothesis on `rand`.
* The JSON file is modelled structurally (`FileData`).  A serialized
  `due_date` is either JSON `null` (`DueStr.null`), a string that
  `datetime.fromisoformat` parses to timestamp `t` (`DueStr.parseable t`), or
  a string it fails to parse (`DueStr.unparseable s`); `isoformat` produces a
  parseable string of the same timestamp, which encodes CPython's guarantee
  `fromisoformat(d.isoformat()) == d`.
-/

namespace PyTask

/-- Python `str.lower()`, modelled characterwise (the strings this program
lowercases — priorities and statuses — are ASCII, where `Char.toLower` agrees
with Python). -/
def pyLower (s : String) : String := ⟨s.data.map Char.toLower⟩

/-- Python `c in s` for a single-character needle: character containment. -/
def pyContainsChar (s : String) (c : Char) : Bool := s.data.contains c

/-- `User.__init__`: id, name, email, plus a creation timestamp taken from the
clock (`datetime.utcnow()`). -/
structure User where
  user_id : Nat
  name : String
  email : String
  created_at : Nat
deriving DecidableEq, Repr

/-- `Task.__init__`: id, title, description, priority, owner (a reference to a
`User`; users are immutable after construction in this program so a value copy
is faithful), status starting at `"pending"`, creation timestamp, and an
optional due date. -/
structure Task where
  task_id : Nat
  title : String
  description : String
  priority : String
  owner : User
  status : String
  created_at : Nat
  due_date : Option Nat
deriving DecidableEq, Repr

/-- `Task.set_due_date(days_from_now)`: raises `ValueError` when negative,
otherwise sets `due_date = utcnow() + timedelta(days = days_from_now)`. -/
def Task.set_due_date (t : Task) (now : Nat) (days_from_now : Int) : Except String Task :=
  if days_from_now < 0 then .error "Due date cannot be negative"
  else .ok { t with due_date := some (now + days_from_now.toNat * 86400) }

/-- `Task.mark_done()`: sets status to `"done"`. -/
def Task.mark_done (t : Task) : Task := { t with status := "done" }

/-- Python `d[k]` lookup on an ordered association list: first matching key. -/
def dictGet {α : Type} : List (Nat × α) → Nat → Option α
  | [], _ => none
  | (k, v) :: rest, key => if k = key then some v else dictGet rest key

/-- Python `d[k] = v`: replace the value in place when the key exists
(preserving its position in insertion order), otherwise append. -/
def dictSet {α : Type} : List (Nat × α) → Nat → α → List (Nat × α)
  | [], key, v => [(key, v)]
  | (k, w) :: rest, key, v =>
      if k = key then (key, v) :: rest else (k, w) :: dictSet rest key v

/-- `TaskManager` state: the `users` and `tasks` dicts plus the two private id
counters. -/
structure TaskManager where
  users : List (Nat × User)
  tasks : List (Nat × Task)
  next_user_id : Nat
  next_task_id : Nat
deriving DecidableEq, Repr

/-- `TaskManager.__init__`: empty stores, both counters at 1. -/
def TaskManager.init : TaskManager :=
  { users := [], tasks := [], next_user_id := 1, next_task_id := 1 }

/-- `TaskManager.add_user(name, email)`: raises `ValueError "Invalid email
format"` when `"@" not in email`; otherwise registers
`User(self._next_user_id, name, email)` and increments the counter. -/
def TaskManager.add_user (m : TaskManager) (now : Nat) (name email : String) :
    Except String (User × TaskManager) :=
  if ¬ pyContainsChar email '@' then .error "Invalid email format"
  else
    let user : User :=
      { user_id := m.next_user_id, name := name, email := email, created_at := now }
    .ok (user,
      { m with users := dictSet m.users m.next_user_id user
               next_user_id := m.next_user_id + 1 })

/-- `TaskManager.add_task(title, description, priority, owner_id)`: raises
`ValueError "Invalid owner_id"` when the owner is unknown; lowercases the
priority, defaulting to `"low"` when the lowercase form is not one of
`low/medium/high`; registers `Task(self._next_task_id, ...)`. -/
def TaskManager.add_task (m : TaskManager) (now : Nat)
    (title description priority : String) (owner_id : Nat) :
    Except String (Task × TaskManager) :=
  match dictGet m.users owner_id with
  | none => .error "Invalid owner_id"
  | some owner =>
    let priority' :=
      if pyLower priority ∈ ["low", "medium", "high"] then pyLower priority else "low"
    let task : Task :=
      { task_id := m.next_task_id, title := title, description := description,
        priority := priority', owner := owner, status := "pending",
        created_at := now, due_date := none }
    .ok (task,
      { m with tasks := dictSet m.tasks m.next_task_id task
               next_task_id := m.next_task_id + 1 })

/-- Loop body of `assign_due_dates`: walks the tasks in insertion order; each
task without a due date consumes the next `randint(1, 30)` value `rand i` and
receives `due_date = utcnow() + timedelta(days = rand i)` (the value is
non-negative, so `set_due_date`'s negativity check cannot fire and is inlined
away). -/
def assignDueGo (now : Nat) (rand : Nat → Nat) :
    List (Nat × Task) → Nat → List (Nat × Task)
  | [], _ => []
  | (k, t) :: rest, i =>
    match t.due_date with
    | some _ => (k, t) :: assignDueGo now rand rest i
    | none =>
        (k, { t with due_date := some (now + rand i * 86400) })
          :: assignDueGo now rand rest (i + 1)

/-- `TaskManager.assign_due_dates()`. -/
def TaskManager.assign_due_dates (m : TaskManager) (now : Nat) (rand : Nat → Nat) :
    TaskManager :=
  { m with tasks := assignDueGo now rand m.tasks 0 }

/-- `TaskManager.list_tasks(status=None)`: Python's `if status:` is a
truthiness test, so both `None` and the empty string select the unfiltered
branch; otherwise tasks are filtered by case-insensitive status match, in
insertion order. -/
def TaskManager.list_tasks (m : TaskManager) (status : Option String) : List Task :=
  match status with
  | some s =>
      if s = "" then m.tasks.map Prod.snd
      else (m.tasks.filter (fun p => pyLower p.2.status == pyLower s)).map Prod.snd
  | none => m.tasks.map Prod.snd

/-- `TaskManager.mark_task_done(task_id)`: raises `ValueError "Task does not
exist"` on an unknown id, otherwise mutates the stored task via
`mark_done()`. -/
def TaskManager.mark_task_done (m : TaskManager) (task_id : Nat) :
    Except String TaskManager :=
  match dictGet m.tasks task_id with
  | none => .error "Task does not exist"
  | some t => .ok { m with tasks := dictSet m.tasks task_id t.mark_done }

/-- `report()` result: `{"total": ..., "done": ..., "pending": ...}`. -/
structure Report where
  total : Nat
  done : Nat
  pending : Nat
deriving DecidableEq, Repr

/-- `TaskManager.report()`: `total = len(tasks)`, `done` counts tasks with
status equal to `"done"`, `pending = total - done`. -/
def TaskManager.report (m : TaskManager) : Report :=
  { total := m.tasks.length,
    done := (m.tasks.filter (fun p => p.2.status == "done")).length,
    pending := m.tasks.length
      - (m.tasks.filter (fun p => p.2.status == "done")).length }

/-- A serialized user record: `{"name": ..., "email": ...}`. -/
structure UserRec where
  name : String
  email : String
deriving DecidableEq, Repr

/-- A serialized `due_date` field: JSON `null` (or an absent / falsy value,
which `if t.get("due_date"):` also skips), a string `datetime.fromisoformat`
parses to timestamp `t`, or a string it raises on. -/
inductive DueStr where
  | null : DueStr
  | parseable : Nat → DueStr
  | unparseable : String → DueStr
deriving DecidableEq, Repr

/-- A serialized task record.  `status` is `Option` because
`load_from_file` reads it with `t.get("status", "pending")`. -/
structure TaskRec where
  title : String
  description : String
  priority : String
  owner_id : Nat
  status : Option String
  due_date : DueStr
deriving DecidableEq, Repr

/-- The JSON document written by `save_to_file` / read by `load_from_file`.
Keys are the integer forms of the JSON object keys (Python writes int keys,
`json` stringifies them, and `load_from_file` applies `int(...)`). -/
structure FileData where
  users : List (Nat × UserRec)
  tasks : List (Nat × TaskRec)
deriving DecidableEq, Repr

/-- `t.due_date.isoformat() if t.due_date else None`: a set `datetime` is
always truthy, so `some d` serializes to a parseable string for `d` and `none`
to `null`. -/
def serDue : Option Nat → DueStr
  | some d => .parseable d
  | none => .null

/-- `TaskManager.save_to_file(path)`: the JSON document it writes. -/
def TaskManager.save_to_file (m : TaskManager) : FileData :=
  { users := m.users.map (fun p => (p.1, { name := p.2.name, email := p.2.email })),
    tasks := m.tasks.map (fun p =>
      (p.1,
        { title := p.2.title, description := p.2.description,
          priority := p.2.priority, owner_id := p.2.owner.user_id,
          status := some p.2.status, due_date := serDue p.2.due_date })) }

/-- The `due_date` a loaded task ends up with: `null`/falsy is skipped, a
parseable string is parsed, and an unparseable string leaves the field unset
(the `except` branch only logs). -/
def loadDue : DueStr → Option Nat
  | .null => none
  | .parseable t => some t
  | .unparseable _ => none

/-- Loop body of `load_from_file` over the serialized task records: a record
whose `owner_id` is not among the loaded users is skipped (`continue`),
otherwise a `Task` is constructed, its status set to `t.get("status",
"pending")`, its due date parsed best-effort, and stored with
`self.tasks[int(tid)] = task`. -/
def loadTasksGo (now : Nat) (users : List (Nat × User)) :
    List (Nat × Task) → List (Nat × TaskRec) → List (Nat × Task)
  | acc, [] => acc
  | acc, (tid, r) :: rest =>
    match dictGet users r.owner_id with
    | none => loadTasksGo now users acc rest
    | some owner =>
      let task : Task :=
        { task_id := tid, title := r.title, description := r.description,
          priority := r.priority, owner := owner,
          status := r.status.getD "pending", created_at := now,
          due_date := loadDue r.due_date }
      loadTasksGo now users (dictSet acc tid task) rest

/-- The dict comprehension rebuilding `self.users` from the document:
`{int(uid): User(int(uid), u["name"], u["email"]) for uid, u in
data.get("users", {}).items()}`. -/
def loadUsers (now : Nat) (f : FileData) : List (Nat × User) :=
  f.users.map (fun p =>
    (p.1, { user_id := p.1, name := p.2.name, email := p.2.email,
            created_at := now : User }))

/-- `TaskManager.load_from_file(path)` on an existing file: replaces `users`
and `tasks` wholesale from the document, leaving both id counters untouched
(the code never resynchronizes them).  The missing-file early return leaves
the manager unchanged and needs no separate model. -/
def TaskManager.load_from_file (m : TaskManager) (now : Nat) (f : FileData) :
    TaskManager :=
  { m with users := loadUsers now f,
           tasks := loadTasksGo now (loadUsers now f) [] f.tasks }

/-- Specification-side view of one iteration of the `load_from_file` task
loop: `none` when the record is skipped for an unknown owner, otherwise the
constructed entry.  `loadTasksGo` is proved to agree with `filterMap` of this
function when the record keys are distinct. -/
def loadTask (now : Nat) (users : List (Nat × User)) (p : Nat × TaskRec) :
    Option (Nat × Task) :=
  match dictGet users p.2.owner_id with
  | none => none
  | some owner =>
      some (p.1,
        { task_id := p.1, title := p.2.title, description := p.2.description,
          priority := p.2.priority, owner := owner,
          status := p.2.status.getD "pending", created_at := now,
          due_date := loadDue p.2.due_date })

/-- The fields of a task the round-trip claim compares: title, description,
priority, status, owner linkage (the owner's user id), and due date. -/
def taskView (t : Task) : String × String × String × String × Nat × Option Nat :=
  (t.title, t.description, t.priority, t.status, t.owner.user_id, t.due_date)

/-- The fields of a user the round-trip claim compares. -/
def userView (u : User) : String × String := (u.name, u.email)

/-- States reachable through the store's operations other than
`load_from_file` (and `save_to_file`, which does not modify the state). -/
inductive ReachNoLoad : TaskManager → Prop where
  | init : ReachNoLoad TaskManager.init
  | add_user {m : TaskManager} {now : Nat} {name email : String} {u : User}
      {m' : TaskManager} (hm : ReachNoLoad m)
      (h : m.add_user now name email = .ok (u, m')) : ReachNoLoad m'
  | add_task {m : TaskManager} {now : Nat} {title description priority : String}
      {owner_id : Nat} {t : Task} {m' : TaskManager} (hm : ReachNoLoad m)
      (h : m.add_task now title description priority owner_id = .ok (t, m')) :
      ReachNoLoad m'
  | mark_task_done {m : TaskManager} {task_id : Nat} {m' : TaskManager}
      (hm : ReachNoLoad m) (h : m.mark_task_done task_id = .ok m') :
      ReachNoLoad m'
  | assign_due_dates {m : TaskManager} {now : Nat} {rand : Nat → Nat}
      (hm : ReachNoLoad m) : ReachNoLoad (m.assign_due_dates now rand)

/-- A file whose task records only carry statuses `"pending"` / `"done"`
(or no status at all), as the persisted-file schema prescribes. -/
def FileStatusOK (f : FileData) : Prop :=
  ∀ p ∈ f.tasks, ∀ s, p.2.status = some s → s = "pending" ∨ s = "done"

/-- States reachable through all the store's operations, where every loaded
file conforms to the schema's status field. -/
inductive ReachWF : TaskManager → Prop where
  | init : ReachWF TaskManager.init
  | add_user {m : TaskManager} {now : Nat} {name email : String} {u : User}
      {m' : TaskManager} (hm : ReachWF m)
      (h : m.add_user now name email = .ok (u, m')) : ReachWF m'
  | add_task {m : TaskManager} {now : Nat} {title description priority : String}
      {owner_id : Nat} {t : Task} {m' : TaskManager} (hm : ReachWF m)
      (h : m.add_task now title description priority owner_id = .ok (t, m')) :
      ReachWF m'
  | mark_task_done {m : TaskManager} {task_id : Nat} {m' : TaskManager}
      (hm : ReachWF m) (h : m.mark_task_done task_id = .ok m') : ReachWF m'
  | assign_due_dates {m : TaskManager} {now : Nat} {rand : Nat → Nat}
      (hm : ReachWF m) : ReachWF (m.assign_due_dates now rand)
  | load_from_file {m : TaskManager} {now : Nat} {f : FileData}
      (hm : ReachWF m) (hf : FileStatusOK f) :
      ReachWF (m.load_from_file now f)

/-! Concrete data used by witnesses and counterexamples. -/

/-- The user created by `add_user("X", "x@x.com")` on a fresh manager at
time 0. -/
def uX : User := { user_id := 1, name := "X", email := "x@x.com", created_at := 0 }

/-- The manager after that `add_user` call. -/
def mW0 : TaskManager :=
  { users := [(1, uX)], tasks := [], next_user_id := 2, next_task_id := 1 }

/-- The task created by `add_task("Task1", "Desc", "low", 1)` on `mW0` at
time 0. -/
def tW : Task :=
  { task_id := 1, title := "Task1", description := "Desc", priority := "low",
    owner := uX, status := "pending", created_at := 0, due_date := none }

/-- The manager after that `add_task` call: one user, one pending task. -/
def mW : TaskManager :=
  { users := [(1, uX)], tasks := [(1, tW)], next_user_id := 2, next_task_id := 2 }

/-- A persisted file holding a single user with id 1 and no tasks. -/
def fileU1 : FileData :=
  { users := [(1, { name := "A", email := "a@a.com" })], tasks := [] }

/-- A fresh manager after `load_from_file` of `fileU1`: user id 1 is in the
store but `_next_user_id` is still 1. -/
def mLoaded : TaskManager := TaskManager.init.load_from_file 0 fileU1

/-- A persisted file whose single task record carries the out-of-schema
status string `"bogus"`. -/
def fileBadStatus : FileData :=
  { users := [(1, { name := "A", email := "a@a.com" })],
    tasks := [(1, { title := "T", description := "D", priority := "low",
                    owner_id := 1, status := some "bogus",
                    due_date := DueStr.null })] }

/-- The id of the user returned by an `add_user` call, when it succeeded. -/
def addedUserId (r : Except String (User × TaskManager)) : Option Nat :=
  r.toOption.map (fun p => p.1.user_id)

/-- The number of stored users after an `add_user` call, when it succeeded. -/
def usersLenAfter (r : Except String (User × TaskManager)) : Option Nat :=
  r.toOption.map (fun p => p.2.users.length)

/-- The priority stored on the task returned by an `add_task` call, when it
succeeded. -/
def addedTaskPriority (r : Except String (Task × TaskManager)) : Option String :=
  r.toOption.map (fun p => p.1.priority)

/-- The store `mW` after `mark_task_done(1)`. -/
def mWdone : TaskManager :=
  { users := [(1, uX)], tasks := [(1, tW.mark_done)],
    next_user_id := 2, next_task_id := 2 }

/-- The task created by a further `add_task("T2", "D2", "low", 1)` on `mW`. -/
def tW2 : Task :=
  { task_id := 2, title := "T2", description := "D2", priority := "low",
    owner := uX, status := "pending", created_at := 0, due_date := none }

/-- The manager after that second `add_task` call. -/
def mW2 : TaskManager :=
  { users := [(1, uX)], tasks := [(1, tW), (2, tW2)],
    next_user_id := 2, next_task_id := 3 }

/-- The random oracle returning 7 on every draw. -/
def rand7 : Nat → Nat := fun _ => 7

/-- The random oracle returning 9 on every draw. -/
def rand9 : Nat → Nat := fun _ => 9

/-- The fresh store after loading `fileBadStatus`. -/
def mBad : TaskManager := TaskManager.init.load_from_file 0 fileBadStatus

/-- A file exhibiting both recoverable anomalies: task 1 references the
unknown owner 99, task 2 has an unparsable `due_date` string. -/
def fileAnomalies : FileData :=
  { users := [(1, { name := "A", email := "a@a.com" })],
    tasks :=
      [(1, { title := "T1", description := "D1", priority := "low",
             owner_id := 99, status := some "pending",
             due_date := DueStr.null }),
       (2, { title := "T2", description := "D2", priority := "high",
             owner_id := 1, status := some "pending",
             due_date := DueStr.unparseable "not-a-date" })] }

/-- The task record of task 2 in `fileAnomalies`. -/
def recT2 : TaskRec :=
  { title := "T2", description := "D2", priority := "high", owner_id := 1,
    status := some "pending", due_date := DueStr.unparseable "not-a-date" }

/-- The user loaded from `fileAnomalies` for key 1 at time 0. -/
def uA : User :=
  { user_id := 1, name := "A", email := "a@a.com", created_at := 0 }

/-- Specification-side view of the task entry `load_from_file` reconstructs
from a saved task entry `p` when the owner lookup in `U` succeeds: same key,
same title/description/priority/status/due date, owner replaced by the looked
up user, creation time stamped with the load-time clock. -/
def reloadTask (U : List (Nat × User)) (now : Nat) (p : Nat × Task) :
    Nat × Task :=
  (p.1,
    { task_id := p.1, title := p.2.title, description := p.2.description,
      priority := p.2.priority,
      owner := (dictGet U p.2.owner.user_id).getD p.2.owner,
      status := p.2.status, created_at := now, due_date := p.2.due_date })

/-! Lemmas about the dict model. -/

theorem dictGet_isSome_iff {α : Type} (l : List (Nat × α)) (k : Nat) :
    (dictGet l k).isSome = true ↔ k ∈ l.map Prod.fst := by
  induction l with
  | nil => simp [dictGet]
  | cons hd tl ih =>
      obtain ⟨k', v'⟩ := hd
      simp only [List.map_cons, List.mem_cons]
      by_cases h : k' = k
      · subst h; simp [dictGet]
      · rw [dictGet, if_neg h, ih]
        constructor
        · exact Or.inr
        · rintro (rfl | hh)
          · exact absurd rfl h
          · exact hh

theorem dictGet_eq_none_iff {α : Type} (l : List (Nat × α)) (k : Nat) :
    dictGet l k = none ↔ k ∉ l.map Prod.fst := by
  rw [← dictGet_isSome_iff]
  cases dictGet l k <;> simp

theorem dictSet_of_not_mem {α : Type} (l : List (Nat × α)) (k : Nat) (v : α)
    (h : k ∉ l.map Prod.fst) : dictSet l k v = l ++ [(k, v)] := by
  induction l with
  | nil => rfl
  | cons hd tl ih =>
      obtain ⟨k', v'⟩ := hd
      simp only [List.map_cons, List.mem_cons, not_or] at h
      have h1 : ¬ k' = k := fun hh => h.1 hh.symm
      rw [dictSet, if_neg h1, ih h.2, List.cons_append]

theorem dictSet_self {α : Type} (l : List (Nat × α)) (k : Nat) (v : α)
    (h : dictGet l k = some v) : dictSet l k v = l := by
  induction l with
  | nil => simp [dictGet] at h
  | cons hd tl ih =>
      obtain ⟨k', v'⟩ := hd
      by_cases hk : k' = k
      · subst hk
        simp [dictGet] at h
        simp [dictSet, h]
      · simp [dictGet, hk] at h
        simp [dictSet, hk, ih h]

theorem map_fst_dictSet {α : Type} (l : List (Nat × α)) (k : Nat) (v w : α)
    (h : dictGet l k = some v) :
    (dictSet l k w).map Prod.fst = l.map Prod.fst := by
  induction l with
  | nil => simp [dictGet] at h
  | cons hd tl ih =>
      obtain ⟨k', v'⟩ := hd
      by_cases hk : k' = k
      · subst hk; simp [dictSet]
      · simp [dictGet, hk] at h
        simp [dictSet, hk, ih h]

theorem length_dictSet {α : Type} (l : List (Nat × α)) (k : Nat) (v w : α)
    (h : dictGet l k = some v) : (dictSet l k w).length = l.length := by
  have := map_fst_dictSet l k v w h
  have h1 : ((dictSet l k w).map Prod.fst).length = (l.map Prod.fst).length := by
    rw [this]
  simpa using h1

theorem filter_length_dictSet {α : Type} (p : α → Bool) (l : List (Nat × α))
    (k : Nat) (v w : α) (h : dictGet l k = some v) :
    ((dictSet l k w).filter (fun q => p q.2)).length + (if p v then 1 else 0)
      = (l.filter (fun q => p q.2)).length + (if p w then 1 else 0) := by
  induction l with
  | nil => simp [dictGet] at h
  | cons hd tl ih =>
      obtain ⟨k', v'⟩ := hd
      by_cases hk : k' = k
      · subst hk
        simp [dictGet] at h
        subst h
        simp only [dictSet, if_pos rfl]
        by_cases hw : p w
        · by_cases hv : p v' <;> simp [List.filter, hw, hv]
        · by_cases hv : p v' <;> simp [List.filter, hw, hv]
      · rw [dictGet, if_neg hk] at h
        have hih := ih h
        rw [dictSet, if_neg hk]
        by_cases hv' : p v' = true
        · simp [List.filter_cons, hv']
          omega
        · simp [List.filter_cons, hv']
          omega

theorem mem_dictSet {α : Type} (l : List (Nat × α)) (k : Nat) (v : α)
    (q : Nat × α) (h : q ∈ dictSet l k v) : q = (k, v) ∨ q ∈ l := by
  induction l with
  | nil =>
      rw [dictSet] at h
      exact Or.inl (List.mem_singleton.mp h)
  | cons hd tl ih =>
      obtain ⟨k', v'⟩ := hd
      by_cases hk : k' = k
      · subst hk
        rw [dictSet, if_pos rfl] at h
        rcases List.mem_cons.mp h with h | h
        · exact Or.inl h
        · exact Or.inr (List.mem_cons_of_mem _ h)
      · rw [dictSet, if_neg hk] at h
        rcases List.mem_cons.mp h with h | h
        · exact Or.inr (by simp [h])
        · rcases ih h with h' | h'
          · exact Or.inl h'
          · exact Or.inr (List.mem_cons_of_mem _ h')

theorem dictGet_of_mem_nodup {α : Type} (l : List (Nat × α)) (k : Nat) (v : α)
    (hmem : (k, v) ∈ l) (hnd : (l.map Prod.fst).Nodup) :
    dictGet l k = some v := by
  induction l with
  | nil => simp at hmem
  | cons hd tl ih =>
      obtain ⟨k', v'⟩ := hd
      simp only [List.map_cons, List.nodup_cons] at hnd
      obtain ⟨hknotin, hnd'⟩ := hnd
      rcases List.mem_cons.mp hmem with h | h
      · have h1 : k = k' := congrArg Prod.fst h
        have h2 : v = v' := congrArg Prod.snd h
        subst h1; subst h2
        simp [dictGet]
      · have hk : ¬ k' = k := by
          intro hh
          subst hh
          exact hknotin (List.mem_map_of_mem Prod.fst h)
        rw [dictGet, if_neg hk]
        exact ih h hnd'

/-! Theorems for the claims. -/

/-- C6: `add_task` with an `owner_id` that is not a key of the store's users
fails with the not-found error (`ValueError "Invalid owner_id"`); being a pure
failure, it returns no updated store, so the task count is unchanged. -/
theorem add_task_unknown_owner (m : TaskManager) (now : Nat)
    (title description priority : String) (owner_id : Nat)
    (h : dictGet m.users owner_id = none) :
    m.add_task now title description priority owner_id
      = Except.error "Invalid owner_id" := by
  unfold TaskManager.add_task
  rw [h]

/-- Witness for C6: on the one-user store `mW`, owner id 7 is unknown and
`add_task` fails with `"Invalid owner_id"`. -/
theorem add_task_unknown_owner_witness :
    dictGet mW.users 7 = none ∧
    mW.add_task 0 "T" "D" "low" 7 = Except.error "Invalid owner_id" :=
  ⟨by decide, add_task_unknown_owner mW 0 "T" "D" "low" 7 (by decide)⟩

/-- C7: a successful `add_task` stores the lowercase form of the priority
when that form is one of `low`/`medium`/`high`, and stores `"low"` for any
other value, without raising. -/
theorem add_task_priority_spec (m : TaskManager) (now : Nat)
    (title description priority : String) (owner_id : Nat) (owner : User)
    (h : dictGet m.users owner_id = some owner) :
    ∃ t m', m.add_task now title description priority owner_id = Except.ok (t, m') ∧
      (pyLower priority ∈ ["low", "medium", "high"] → t.priority = pyLower priority) ∧
      (pyLower priority ∉ ["low", "medium", "high"] → t.priority = "low") := by
  unfold TaskManager.add_task
  rw [h]
  by_cases hp : pyLower priority ∈ ["low", "medium", "high"]
  · exact ⟨_, _, rfl, fun _ => by simp [hp], fun hn => absurd hp hn⟩
  · exact ⟨_, _, rfl, fun hy => absurd hy hp, fun _ => by simp [hp]⟩

/-- Witness for C7: `add_task` with priority `"URGENT"` on the one-user store
succeeds and stores priority `"low"`. -/
theorem add_task_priority_witness :
    dictGet mW.users 1 = some uX ∧
    addedTaskPriority (mW.add_task 0 "T" "D" "URGENT" 1) = some "low" := by
  refine ⟨by decide, ?_⟩
  obtain ⟨t, m', hok, -, hlow⟩ :=
    add_task_priority_spec mW 0 "T" "D" "URGENT" 1 uX (by decide)
  rw [hok]
  simp [addedTaskPriority, Except.toOption, hlow (by decide)]

/-- C5: `mark_task_done` on an unknown id fails with the not-found error
(`ValueError "Task does not exist"`); on a known id whose task is pending,
`report()` gains one `done` and loses one `pending` with `total` unchanged;
on a known id whose task is already done, the report is unchanged. -/
theorem mark_task_done_spec (m : TaskManager) (task_id : Nat) :
    (dictGet m.tasks task_id = none →
        m.mark_task_done task_id = Except.error "Task does not exist") ∧
    (∀ t m', dictGet m.tasks task_id = some t →
        m.mark_task_done task_id = Except.ok m' →
        (t.status ≠ "done" →
            m'.report.done = m.report.done + 1 ∧
            m'.report.pending + 1 = m.report.pending ∧
            m'.report.total = m.report.total) ∧
        (t.status = "done" → m'.report = m.report)) := by
  constructor
  · intro h
    unfold TaskManager.mark_task_done
    rw [h]
  · intro t m' hget hok
    unfold TaskManager.mark_task_done at hok
    rw [hget] at hok
    have hm' : m' = { m with tasks := dictSet m.tasks task_id t.mark_done } :=
      (Except.ok.inj hok).symm
    subst hm'
    have hlen := length_dictSet m.tasks task_id t t.mark_done hget
    have hcnt :
        ((dictSet m.tasks task_id t.mark_done).filter
            (fun q => q.2.status == "done")).length
          + (if t.status == "done" then 1 else 0)
        = (m.tasks.filter (fun q => q.2.status == "done")).length
          + (if t.mark_done.status == "done" then 1 else 0) :=
      filter_length_dictSet (fun x => x.status == "done")
        m.tasks task_id t t.mark_done hget
    have hfle :
        ((dictSet m.tasks task_id t.mark_done).filter
            (fun q => q.2.status == "done")).length
          ≤ (dictSet m.tasks task_id t.mark_done).length :=
      List.length_filter_le _ _
    have hwt : (t.mark_done.status == "done") = true := by
      simp [Task.mark_done]
    rw [hwt] at hcnt
    constructor
    · intro hnd
      have hvf : (t.status == "done") = false := by
        simp [hnd]
      rw [hvf] at hcnt
      have hcnt' :
          ((dictSet m.tasks task_id t.mark_done).filter
              (fun q => q.2.status == "done")).length
            = (m.tasks.filter (fun q => q.2.status == "done")).length + 1 := by
        simpa using hcnt
      simp only [TaskManager.report]
      refine ⟨?_, ?_, ?_⟩
      · omega
      · omega
      · exact hlen
    · intro hd
      have hvt : (t.status == "done") = true := by simp [hd]
      rw [hvt] at hcnt
      have hcnt' :
          ((dictSet m.tasks task_id t.mark_done).filter
              (fun q => q.2.status == "done")).length
            = (m.tasks.filter (fun q => q.2.status == "done")).length := by
        simpa using hcnt
      simp only [TaskManager.report, Report.mk.injEq]
      omega

/-- Witness for C5: marking the pending task 1 of the one-task store `mW`
done moves one task from `pending` to `done`; task 99 is unknown and fails. -/
theorem mark_task_done_witness :
    (mW.mark_task_done 99 = Except.error "Task does not exist") ∧
    (mW.mark_task_done 1 = Except.ok mWdone) ∧
    (mWdone.report.done = mW.report.done + 1) ∧
    (mWdone.report.pending + 1 = mW.report.pending) := by
  have h := mark_task_done_spec mW 1
  have hok : mW.mark_task_done 1 = Except.ok mWdone := rfl
  have h2 := (h.2 tW mWdone (by decide) hok).1 (by decide)
  exact ⟨(mark_task_done_spec mW 99).1 (by decide), hok, h2.1, h2.2.1⟩

/-- C8 (amended): `list_tasks` with status absent returns all tasks in
insertion order; for every NON-EMPTY status string it returns exactly the
tasks whose status matches case-insensitively, in insertion order.  (The
empty string is excluded: Python's `if status:` is falsy on `""`, so the code
returns all tasks there — see the counterexample.) -/
theorem list_tasks_spec (m : TaskManager) (s : String) (hs : s ≠ "") :
    m.list_tasks none = m.tasks.map Prod.snd ∧
    m.list_tasks (some s)
      = (m.tasks.map Prod.snd).filter (fun t => pyLower t.status == pyLower s) := by
  refine ⟨rfl, ?_⟩
  show (if s = "" then m.tasks.map Prod.snd
      else (m.tasks.filter (fun p => pyLower p.2.status == pyLower s)).map Prod.snd)
    = (m.tasks.map Prod.snd).filter (fun t => pyLower t.status == pyLower s)
  rw [if_neg hs]
  have hgen : ∀ l : List (Nat × Task),
      (l.filter (fun p => pyLower p.2.status == pyLower s)).map Prod.snd
        = (l.map Prod.snd).filter (fun t => pyLower t.status == pyLower s) := by
    intro l
    induction l with
    | nil => rfl
    | cons hd tl ih =>
        obtain ⟨k, t⟩ := hd
        by_cases hm : (pyLower t.status == pyLower s) = true
        · simp [List.filter_cons, hm, ih]
        · simp [List.filter_cons, hm, ih]
  exact hgen m.tasks

/-- Counterexample for C8: on the one-task store `mW` (its task has status
`"pending"`), `list_tasks("")` returns that task even though no task's status
matches `""` case-insensitively — the claim predicts the empty list. -/
theorem list_tasks_empty_status_counterexample :
    (mW.list_tasks (some "")).length = 1 ∧
    ((mW.list_tasks (some "")).filter
        (fun t => pyLower t.status == pyLower "")).length = 0 := by decide

theorem map_fst_assignDueGo (now : Nat) (rand : Nat → Nat) :
    ∀ (l : List (Nat × Task)) (i : Nat),
      (assignDueGo now rand l i).map Prod.fst = l.map Prod.fst := by
  intro l
  induction l with
  | nil => intro i; rfl
  | cons hd tl ih =>
      intro i
      obtain ⟨k, t⟩ := hd
      rcases h : t.due_date with - | d
      · simp [assignDueGo, h, ih]
      · simp [assignDueGo, h, ih]

/-- C2 (amended): within every sequence of store operations NOT involving
`load_from_file`, user and task identifiers are assigned sequentially starting
at 1 and never reused: the stored key sets are exactly the contiguous ranges
below the two counters, so the next id handed out is always fresh.
`load_from_file` breaks the property because it replaces the collections
without resynchronizing the counters — see the counterexample. -/
theorem ids_sequential_no_load (m : TaskManager) (hm : ReachNoLoad m) :
    1 ≤ m.next_user_id ∧ 1 ≤ m.next_task_id ∧
    m.users.map Prod.fst = List.range' 1 (m.next_user_id - 1) ∧
    m.tasks.map Prod.fst = List.range' 1 (m.next_task_id - 1) := by
  induction hm with
  | init => exact ⟨le_rfl, le_rfl, rfl, rfl⟩
  | @add_user m now name email u m' hm h ih =>
      obtain ⟨h1, h2, hu, ht⟩ := ih
      rw [TaskManager.add_user] at h
      split at h
      · exact absurd h (by simp)
      · have hpair := Except.ok.inj h
        injection hpair with hueq hmeq
        subst hmeq
        have hnot : m.next_user_id ∉ m.users.map Prod.fst := by
          rw [hu, List.mem_range'_1]
          omega
        refine ⟨?_, h2, ?_, ht⟩
        · show 1 ≤ m.next_user_id + 1
          omega
        · show (dictSet m.users m.next_user_id _).map Prod.fst
            = List.range' 1 (m.next_user_id + 1 - 1)
          rw [dictSet_of_not_mem _ _ _ hnot, List.map_append]
          have he1 : m.next_user_id + 1 - 1 = (m.next_user_id - 1) + 1 := by omega
          rw [hu, he1, List.range'_concat,
            show (1 : Nat) + 1 * (m.next_user_id - 1) = m.next_user_id from by omega]
          rfl
  | @add_task m now title description priority owner_id t m' hm h ih =>
      obtain ⟨h1, h2, hu, ht⟩ := ih
      rw [TaskManager.add_task] at h
      split at h
      · exact absurd h (by simp)
      · have hpair := Except.ok.inj h
        injection hpair with hteq hmeq
        subst hmeq
        have hnot : m.next_task_id ∉ m.tasks.map Prod.fst := by
          rw [ht, List.mem_range'_1]
          omega
        refine ⟨h1, ?_, hu, ?_⟩
        · show 1 ≤ m.next_task_id + 1
          omega
        · show (dictSet m.tasks m.next_task_id _).map Prod.fst
            = List.range' 1 (m.next_task_id + 1 - 1)
          rw [dictSet_of_not_mem _ _ _ hnot, List.map_append]
          have he1 : m.next_task_id + 1 - 1 = (m.next_task_id - 1) + 1 := by omega
          rw [ht, he1, List.range'_concat,
            show (1 : Nat) + 1 * (m.next_task_id - 1) = m.next_task_id from by omega]
          rfl
  | @mark_task_done m task_id m' hm h ih =>
      obtain ⟨h1, h2, hu, ht⟩ := ih
      rw [TaskManager.mark_task_done] at h
      split at h
      · exact absurd h (by simp)
      · rename_i t hget
        have hmeq := Except.ok.inj h
        subst hmeq
        exact ⟨h1, h2, hu, by rw [map_fst_dictSet m.tasks task_id t _ hget, ht]⟩
  | @assign_due_dates m now rand hm ih =>
      obtain ⟨h1, h2, hu, ht⟩ := ih
      refine ⟨h1, h2, hu, ?_⟩
      show (assignDueGo now rand m.tasks 0).map Prod.fst
        = List.range' 1 (m.next_task_id - 1)
      rw [map_fst_assignDueGo]
      exact ht

/-- Witness for C2 (amended): the fresh store is reachable without loads and
satisfies the sequential-id invariant. -/
theorem ids_sequential_no_load_witness :
    1 ≤ TaskManager.init.next_user_id ∧ 1 ≤ TaskManager.init.next_task_id ∧
    TaskManager.init.users.map Prod.fst
      = List.range' 1 (TaskManager.init.next_user_id - 1) ∧
    TaskManager.init.tasks.map Prod.fst
      = List.range' 1 (TaskManager.init.next_task_id - 1) :=
  ids_sequential_no_load TaskManager.init ReachNoLoad.init

/-- Counterexample for C2: load a file holding user id 1 into a fresh store,
then call `add_user`; the call hands out id 1 again even though id 1 is
already present (the loaded counters were never resynchronized). -/
theorem id_reuse_after_load_counterexample :
    (dictGet mLoaded.users 1).isSome = true ∧
    addedUserId (mLoaded.add_user 0 "B" "b@b.com") = some 1 := by decide

/-- C3 (amended): when the stored user ids are exactly the contiguous range
`1 .. next_user_id - 1` — true of every store built without `load_from_file` —
`add_user` with an email containing `'@'` returns a user whose id is the
smallest positive integer not already used and increases the user count by
exactly one.  (After a `load_from_file` the hypothesis can fail, and so does
the claim — see the counterexample.) -/
theorem add_user_spec (m : TaskManager) (now : Nat) (name email : String)
    (hkeys : m.users.map Prod.fst = List.range' 1 (m.next_user_id - 1))
    (hpos : 1 ≤ m.next_user_id)
    (he : pyContainsChar email '@' = true) :
    ∃ u m', m.add_user now name email = Except.ok (u, m') ∧
      1 ≤ u.user_id ∧
      u.user_id ∉ m.users.map Prod.fst ∧
      (∀ j, 1 ≤ j → j < u.user_id → j ∈ m.users.map Prod.fst) ∧
      m'.users.length = m.users.length + 1 := by
  have hnot : m.next_user_id ∉ m.users.map Prod.fst := by
    rw [hkeys, List.mem_range'_1]
    omega
  have hstep : m.add_user now name email = Except.ok
      ({ user_id := m.next_user_id, name := name, email := email,
         created_at := now },
       { m with
          users := dictSet m.users m.next_user_id
            { user_id := m.next_user_id, name := name, email := email,
              created_at := now },
          next_user_id := m.next_user_id + 1 }) := by
    simp [TaskManager.add_user, he]
  refine ⟨_, _, hstep, hpos, hnot, ?_, ?_⟩
  · intro j hj1 hj2
    have hj2' : j < m.next_user_id := hj2
    rw [hkeys, List.mem_range'_1]
    omega
  · show (dictSet m.users m.next_user_id _).length = m.users.length + 1
    rw [dictSet_of_not_mem _ _ _ hnot, List.length_append]
    rfl

/-- Witness for C3 (amended): on the fresh store, `add_user("X", "x@x.com")`
returns user id 1 and the store then holds one user. -/
theorem add_user_spec_witness :
    addedUserId (TaskManager.init.add_user 0 "X" "x@x.com") = some 1 ∧
    usersLenAfter (TaskManager.init.add_user 0 "X" "x@x.com") = some 1 := by
  obtain ⟨u, m', hok, hpos, hnot, hsm, hlen⟩ :=
    add_user_spec TaskManager.init 0 "X" "x@x.com" rfl le_rfl (by decide)
  have hu1 : u.user_id = 1 := by
    rcases Nat.lt_or_ge 1 u.user_id with h | h
    · exact absurd (hsm 1 le_rfl h) (by simp [TaskManager.init])
    · omega
  rw [hok]
  constructor
  · simp [addedUserId, Except.toOption, hu1]
  · simp [usersLenAfter, Except.toOption]
    simpa [TaskManager.init] using hlen

/-- Counterexample for C3: after loading a file holding user id 1 into a
fresh store, `add_user` returns id 1 — which is already used, not the
smallest unused positive integer (that would be 2) — and the user count stays
at 1 because the dict entry is overwritten. -/
theorem add_user_smallest_id_counterexample :
    (dictGet mLoaded.users 1).isSome = true ∧
    addedUserId (mLoaded.add_user 0 "B" "b@b.com") = some 1 ∧
    mLoaded.users.length = 1 ∧
    usersLenAfter (mLoaded.add_user 0 "B" "b@b.com") = some 1 := by decide

theorem assignDueGo_all_some (now : Nat) (rand : Nat → Nat) :
    ∀ (l : List (Nat × Task)) (i : Nat),
      ∀ p ∈ assignDueGo now rand l i, p.2.due_date ≠ none := by
  intro l
  induction l with
  | nil => intro i p hp; simp [assignDueGo] at hp
  | cons hd tl ih =>
      intro i p hp
      obtain ⟨k, t⟩ := hd
      rcases h : t.due_date with - | d
      · rw [assignDueGo, h] at hp
        rcases List.mem_cons.mp hp with hp | hp
        · subst hp; simp
        · exact ih (i + 1) p hp
      · rw [assignDueGo, h] at hp
        rcases List.mem_cons.mp hp with hp | hp
        · subst hp; simp [h]
        · exact ih i p hp

theorem assignDueGo_of_all_some (now : Nat) (rand : Nat → Nat) :
    ∀ (l : List (Nat × Task)) (i : Nat),
      (∀ p ∈ l, p.2.due_date ≠ none) → assignDueGo now rand l i = l := by
  intro l
  induction l with
  | nil => intro i _; rfl
  | cons hd tl ih =>
      intro i hl
      obtain ⟨k, t⟩ := hd
      rcases h : t.due_date with - | d
      · exact absurd h (hl (k, t) (List.mem_cons_self _ _))
      · rw [assignDueGo, h, ih i (fun p hp => hl p (List.mem_cons_of_mem _ hp))]

theorem assignDueGo_forall2 (now : Nat) (rand : Nat → Nat)
    (hr : ∀ i, 1 ≤ rand i ∧ rand i ≤ 30) :
    ∀ (l : List (Nat × Task)) (i : Nat),
      List.Forall₂ (fun p q : Nat × Task =>
          q.1 = p.1 ∧
          (∀ d, p.2.due_date = some d → q = p) ∧
          (p.2.due_date = none →
            ∃ days, 1 ≤ days ∧ days ≤ 30 ∧
              q.2 = { p.2 with due_date := some (now + days * 86400) }))
        l (assignDueGo now rand l i) := by
  intro l
  induction l with
  | nil => intro i; exact List.Forall₂.nil
  | cons hd tl ih =>
      intro i
      obtain ⟨k, t⟩ := hd
      rcases h : t.due_date with - | d
      · rw [assignDueGo, h]
        refine List.Forall₂.cons ⟨rfl, ?_, ?_⟩ (ih (i + 1))
        · intro d hd
          rw [h] at hd
          exact absurd hd (by simp)
        · intro _
          exact ⟨rand i, (hr i).1, (hr i).2, rfl⟩
      · rw [assignDueGo, h]
        refine List.Forall₂.cons ⟨rfl, fun d' _ => rfl, ?_⟩ (ih i)
        intro hnone
        rw [h] at hnone
        exact absurd hnone (by simp)

/-- C9: `assign_due_dates` leaves every task that already has a due date
untouched (all fields), gives every task lacking one a due date of
`now + days * 86400` seconds with `days` drawn by `randint(1, 30)` — i.e.
between 1 and 30 days ahead of the current time — and running it again
immediately changes nothing, since every task then has a due date. -/
theorem assign_due_dates_spec (m : TaskManager) (now : Nat) (rand : Nat → Nat)
    (hr : ∀ i, 1 ≤ rand i ∧ rand i ≤ 30) :
    List.Forall₂ (fun p q : Nat × Task =>
        q.1 = p.1 ∧
        (∀ d, p.2.due_date = some d → q = p) ∧
        (p.2.due_date = none →
          ∃ days, 1 ≤ days ∧ days ≤ 30 ∧
            q.2 = { p.2 with due_date := some (now + days * 86400) }))
      m.tasks (m.assign_due_dates now rand).tasks ∧
    ∀ now' rand',
      (m.assign_due_dates now rand).assign_due_dates now' rand'
        = m.assign_due_dates now rand := by
  constructor
  · exact assignDueGo_forall2 now rand hr m.tasks 0
  · intro now' rand'
    show ({ m with tasks := assignDueGo now rand m.tasks 0 } : TaskManager).assign_due_dates now' rand'
      = { m with tasks := assignDueGo now rand m.tasks 0 }
    rw [TaskManager.assign_due_dates]
    congr 1
    exact assignDueGo_of_all_some now' rand' _ 0
      (assignDueGo_all_some now rand m.tasks 0)

/-- Witness for C9: on the one-pending-task store `mW`, a second immediate
run of `assign_due_dates` (even with a different clock and random stream)
changes nothing. -/
theorem assign_due_dates_witness :
    (mW.assign_due_dates 100 rand7).assign_due_dates 200 rand9
      = mW.assign_due_dates 100 rand7 :=
  (assign_due_dates_spec mW 100 rand7
    (fun _ => ⟨by norm_num [rand7], by norm_num [rand7]⟩)).2 200 rand9

theorem status_mem_assignDueGo (now : Nat) (rand : Nat → Nat) :
    ∀ (l : List (Nat × Task)) (i : Nat), ∀ p ∈ assignDueGo now rand l i,
      ∃ q ∈ l, p.2.status = q.2.status := by
  intro l
  induction l with
  | nil => intro i p hp; simp [assignDueGo] at hp
  | cons hd tl ih =>
      intro i p hp
      obtain ⟨k, t⟩ := hd
      rcases h : t.due_date with - | d <;>
        rw [assignDueGo, h] at hp <;> rcases List.mem_cons.mp hp with hp | hp
      · exact ⟨(k, t), List.mem_cons_self _ _, by rw [hp]⟩
      · obtain ⟨q, hq, hqs⟩ := ih (i + 1) p hp
        exact ⟨q, List.mem_cons_of_mem _ hq, hqs⟩
      · exact ⟨(k, t), List.mem_cons_self _ _, by rw [hp]⟩
      · obtain ⟨q, hq, hqs⟩ := ih i p hp
        exact ⟨q, List.mem_cons_of_mem _ hq, hqs⟩

theorem mem_loadTasksGo (now : Nat) (users : List (Nat × User)) :
    ∀ (recs : List (Nat × TaskRec)) (acc : List (Nat × Task)),
      ∀ p ∈ loadTasksGo now users acc recs,
        p ∈ acc ∨ ∃ r ∈ recs, p.2.status = r.2.status.getD "pending" := by
  intro recs
  induction recs with
  | nil => intro acc p hp; exact Or.inl hp
  | cons hd tl ih =>
      intro acc p hp
      obtain ⟨tid, r⟩ := hd
      rcases hrec : dictGet users r.owner_id with - | owner
      · rw [loadTasksGo, hrec] at hp
        rcases ih acc p hp with h | ⟨q, hq, hqs⟩
        · exact Or.inl h
        · exact Or.inr ⟨q, List.mem_cons_of_mem _ hq, hqs⟩
      · rw [loadTasksGo, hrec] at hp
        rcases ih _ p hp with h | ⟨q, hq, hqs⟩
        · rcases mem_dictSet _ _ _ _ h with h' | h'
          · refine Or.inr ⟨(tid, r), List.mem_cons_self _ _, ?_⟩
            rw [h']
          · exact Or.inl h'
        · exact Or.inr ⟨q, List.mem_cons_of_mem _ hq, hqs⟩

/-- C10 (amended): in every state reachable through the store's operations —
with `load_from_file` restricted to files whose task records carry only
statuses `"pending"`/`"done"` or none, as the persisted schema prescribes —
every task's status is `"pending"` or `"done"`, and a task returned by a
successful `add_task` starts at `"pending"`.  On an arbitrary file the load
copies the file's status string verbatim, so the unrestricted claim fails —
see the counterexample. -/
theorem status_invariant (m : TaskManager) (hm : ReachWF m) :
    (∀ p ∈ m.tasks, p.2.status = "pending" ∨ p.2.status = "done") ∧
    (∀ now title description priority owner_id t m',
      m.add_task now title description priority owner_id = Except.ok (t, m') →
      t.status = "pending") := by
  have hstart : ∀ (mm : TaskManager) now title description priority owner_id t m',
      mm.add_task now title description priority owner_id = Except.ok (t, m') →
      t.status = "pending" := by
    intro mm now title description priority owner_id t m' h
    rw [TaskManager.add_task] at h
    split at h
    · exact absurd h (by simp)
    · have hpair := Except.ok.inj h
      injection hpair with hteq hmeq
      rw [← hteq]
  refine ⟨?_, hstart m⟩
  induction hm with
  | init => intro p hp; simp [TaskManager.init] at hp
  | @add_user m now name email u m' hm h ih =>
      intro p hp
      rw [TaskManager.add_user] at h
      split at h
      · exact absurd h (by simp)
      · have hpair := Except.ok.inj h
        injection hpair with hueq hmeq
        subst hmeq
        exact ih p hp
  | @add_task m now title description priority owner_id t m' hm h ih =>
      intro p hp
      have hcopy := h
      rw [TaskManager.add_task] at h
      split at h
      · exact absurd h (by simp)
      · have hpair := Except.ok.inj h
        injection hpair with hteq hmeq
        subst hmeq
        rcases mem_dictSet _ _ _ _ hp with h' | h'
        · rw [h']
          exact Or.inl rfl
        · exact ih p h'
  | @mark_task_done m task_id m' hm h ih =>
      intro p hp
      rw [TaskManager.mark_task_done] at h
      split at h
      · exact absurd h (by simp)
      · rename_i t hget
        have hmeq := Except.ok.inj h
        subst hmeq
        rcases mem_dictSet _ _ _ _ hp with h' | h'
        · rw [h']
          exact Or.inr rfl
        · exact ih p h'
  | @assign_due_dates m now rand hm ih =>
      intro p hp
      obtain ⟨q, hq, hqs⟩ := status_mem_assignDueGo now rand m.tasks 0 p hp
      rw [hqs]
      exact ih q hq
  | @load_from_file m now f hm hf ih =>
      intro p hp
      rcases mem_loadTasksGo now (loadUsers now f) f.tasks [] p hp with h' | ⟨r, hr, hrs⟩
      · simp at h'
      · rcases hst : r.2.status with - | s
        · rw [hrs, hst]
          exact Or.inl rfl
        · rw [hrs, hst]
          exact hf r hr s hst

/-- Witness for C10 (amended): the store `mW` is reachable (fresh store,
`add_user`, `add_task` — no loads), so its task `tW` has a legal status, and
the `add_task` that created `tW` started it at `"pending"`. -/
theorem status_invariant_witness :
    (tW.status = "pending" ∨ tW.status = "done") ∧ tW2.status = "pending" := by
  have h1 : TaskManager.init.add_user 0 "X" "x@x.com" = Except.ok (uX, mW0) := rfl
  have h2 : mW0.add_task 0 "Task1" "Desc" "low" 1 = Except.ok (tW, mW) := rfl
  have h3 : mW.add_task 0 "T2" "D2" "low" 1 = Except.ok (tW2, mW2) := rfl
  have hre : ReachWF mW := ReachWF.add_task (ReachWF.add_user ReachWF.init h1) h2
  have h := status_invariant mW hre
  exact ⟨h.1 (1, tW) (by decide), h.2 0 "T2" "D2" "low" 1 tW2 mW2 h3⟩

/-- Counterexample for C10: loading a file whose task record carries status
`"bogus"` yields a store whose single task has status `"bogus"`, which is
neither `"pending"` nor `"done"`. -/
theorem status_invariant_counterexample :
    mBad.tasks.map (fun p => p.2.status) = ["bogus"] ∧
    ¬ ("bogus" = "pending" ∨ "bogus" = "done") := by decide

/-- Witness for C8 (amended): on the one-task store `mW`, both branches of
`list_tasks` at the non-empty status `"PENDING"` (matching `"pending"`
case-insensitively). -/
theorem list_tasks_spec_witness :
    mW.list_tasks none = mW.tasks.map Prod.snd ∧
    mW.list_tasks (some "PENDING")
      = (mW.tasks.map Prod.snd).filter
          (fun t => pyLower t.status == pyLower "PENDING") :=
  list_tasks_spec mW "PENDING" (by decide)

theorem loadTasksGo_eq_filterMap (now : Nat) (users : List (Nat × User)) :
    ∀ (recs : List (Nat × TaskRec)) (acc : List (Nat × Task)),
      (∀ k ∈ recs.map Prod.fst, k ∉ acc.map Prod.fst) →
      (recs.map Prod.fst).Nodup →
      loadTasksGo now users acc recs
        = acc ++ recs.filterMap (loadTask now users) := by
  intro recs
  induction recs with
  | nil =>
      intro acc _ _
      simp [loadTasksGo]
  | cons hd tl ih =>
      intro acc hdisj hnd
      obtain ⟨tid, r⟩ := hd
      simp only [List.map_cons, List.nodup_cons] at hnd
      obtain ⟨htid, hnd'⟩ := hnd
      rcases hrec : dictGet users r.owner_id with - | owner
      · have hload : loadTask now users (tid, r) = none := by
          simp [loadTask, hrec]
        rw [loadTasksGo, hrec, List.filterMap_cons_none hload]
        exact ih acc
          (fun k hk => hdisj k (List.mem_cons_of_mem _ hk)) hnd'
      · have hload : loadTask now users (tid, r)
            = some (tid,
              { task_id := tid, title := r.title, description := r.description,
                priority := r.priority, owner := owner,
                status := r.status.getD "pending", created_at := now,
                due_date := loadDue r.due_date }) := by
          simp [loadTask, hrec]
        rw [loadTasksGo, hrec, List.filterMap_cons_some hload]
        have hfresh : tid ∉ acc.map Prod.fst :=
          hdisj tid (List.mem_cons_self _ _)
        show loadTasksGo now users (dictSet acc tid _) tl = _
        rw [ih (dictSet acc tid _) ?hdisj hnd',
          dictSet_of_not_mem _ _ _ hfresh, List.append_assoc,
          List.singleton_append]
        case hdisj =>
          intro k hk
          rw [dictSet_of_not_mem _ _ _ hfresh, List.map_append,
            List.mem_append]
          rintro (hka | hka)
          · exact hdisj k (List.mem_cons_of_mem _ hk) hka
          · simp at hka
            subst hka
            exact htid hk

theorem map_fst_filterMap_loadTask (now : Nat) (users : List (Nat × User)) :
    ∀ recs : List (Nat × TaskRec),
      (recs.filterMap (loadTask now users)).map Prod.fst
        = (recs.filter
            (fun p => (dictGet users p.2.owner_id).isSome)).map Prod.fst := by
  intro recs
  induction recs with
  | nil => rfl
  | cons hd tl ih =>
      obtain ⟨tid, r⟩ := hd
      rcases hrec : dictGet users r.owner_id with - | owner
      · have hload : loadTask now users (tid, r) = none := by
          simp [loadTask, hrec]
        rw [List.filterMap_cons_none hload, ih, List.filter_cons]
        simp [hrec]
      · have hload : loadTask now users (tid, r)
            = some (tid,
              { task_id := tid, title := r.title, description := r.description,
                priority := r.priority, owner := owner,
                status := r.status.getD "pending", created_at := now,
                due_date := loadDue r.due_date }) := by
          simp [loadTask, hrec]
        rw [List.filterMap_cons_some hload, List.filter_cons]
        simp only [hrec, Option.isSome_some, if_true]
        rw [List.map_cons, List.map_cons, ih]

/-- C4: on a schema-shaped file with distinct task keys, `load_from_file`
never aborts the whole load on a recoverable anomaly: exactly the task
records whose `owner_id` matches a loaded user are stored (a record with an
unknown owner is skipped, the rest are still loaded), and a record whose
`due_date` string fails to parse is still loaded with `due_date` left unset
(and its other fields intact). -/
theorem load_from_file_anomalies (m0 : TaskManager) (now : Nat) (f : FileData)
    (hnd : (f.tasks.map Prod.fst).Nodup) :
    ((m0.load_from_file now f).tasks.map Prod.fst
      = (f.tasks.filter
          (fun p => (dictGet (loadUsers now f) p.2.owner_id).isSome)).map
          Prod.fst) ∧
    (∀ tid r, (tid, r) ∈ f.tasks → ∀ owner,
        dictGet (loadUsers now f) r.owner_id = some owner →
        ∃ task, dictGet (m0.load_from_file now f).tasks tid = some task ∧
          task.title = r.title ∧ task.description = r.description ∧
          task.priority = r.priority ∧
          task.status = r.status.getD "pending" ∧
          (∀ s, r.due_date = DueStr.unparseable s → task.due_date = none)) := by
  have htasks : (m0.load_from_file now f).tasks
      = f.tasks.filterMap (loadTask now (loadUsers now f)) := by
    show loadTasksGo now (loadUsers now f) [] f.tasks = _
    rw [loadTasksGo_eq_filterMap now (loadUsers now f) f.tasks []
      (by intro k _ hk; simp at hk) hnd]
    rfl
  constructor
  · rw [htasks]
    exact map_fst_filterMap_loadTask now (loadUsers now f) f.tasks
  · intro tid r hmem owner howner
    have hmem' : ((tid,
        { task_id := tid, title := r.title, description := r.description,
          priority := r.priority, owner := owner,
          status := r.status.getD "pending", created_at := now,
          due_date := loadDue r.due_date }) : Nat × Task)
        ∈ (m0.load_from_file now f).tasks := by
      rw [htasks]
      exact List.mem_filterMap.mpr
        ⟨(tid, r), hmem, by simp [loadTask, howner]⟩
    have hndres : ((m0.load_from_file now f).tasks.map Prod.fst).Nodup := by
      rw [htasks, map_fst_filterMap_loadTask]
      exact ((List.filter_sublist f.tasks).map Prod.fst).nodup hnd
    refine ⟨_, dictGet_of_mem_nodup _ _ _ hmem' hndres, rfl, rfl, rfl, rfl, ?_⟩
    intro s hs
    show loadDue r.due_date = none
    rw [hs]
    rfl

/-- Witness for C4: loading `fileAnomalies` into a fresh store skips only
task 1 (unknown owner) and keeps task 2 with its due date unset. -/
theorem load_from_file_anomalies_witness :
    (TaskManager.init.load_from_file 0 fileAnomalies).tasks.map Prod.fst
        = (fileAnomalies.tasks.filter
            (fun p => (dictGet (loadUsers 0 fileAnomalies) p.2.owner_id).isSome)).map
            Prod.fst ∧
    (TaskManager.init.load_from_file 0 fileAnomalies).tasks.map Prod.fst = [2] ∧
    (dictGet (TaskManager.init.load_from_file 0 fileAnomalies).tasks 2).map
        (fun t => t.due_date) = some none := by
  have h := load_from_file_anomalies TaskManager.init 0 fileAnomalies (by decide)
  refine ⟨h.1, by decide, ?_⟩
  obtain ⟨task, hget, -, -, -, -, hdue⟩ := h.2 2 recT2 (by decide) uA (by decide)
  rw [hget]
  simp [hdue "not-a-date" rfl]

theorem loadDue_serDue (d : Option Nat) : loadDue (serDue d) = d := by
  cases d <;> rfl

theorem dictGet_keyed_map {α β : Type} (g : Nat → α → β) :
    ∀ (l : List (Nat × α)) (k : Nat),
      dictGet (l.map (fun p => (p.1, g p.1 p.2))) k
        = (dictGet l k).map (g k) := by
  intro l
  induction l with
  | nil => intro k; rfl
  | cons hd tl ih =>
      intro k
      obtain ⟨k', v'⟩ := hd
      simp only [List.map_cons]
      by_cases h : k' = k
      · subst h
        simp [dictGet]
      · rw [dictGet, if_neg h, dictGet, if_neg h, ih]

theorem loadUsers_save (m : TaskManager) (now : Nat) :
    loadUsers now m.save_to_file
      = m.users.map (fun p =>
          (p.1, { user_id := p.1, name := p.2.name, email := p.2.email,
                  created_at := now : User })) := by
  show (m.users.map _).map _ = _
  rw [List.map_map]
  rfl

theorem dictGet_loadUsers_save (m : TaskManager) (now k : Nat) :
    dictGet (loadUsers now m.save_to_file) k
      = (dictGet m.users k).map (fun u =>
          ({ user_id := k, name := u.name, email := u.email,
             created_at := now } : User)) := by
  rw [loadUsers_save]
  exact dictGet_keyed_map
    (fun k u => ({ user_id := k, name := u.name, email := u.email,
                   created_at := now } : User)) m.users k

theorem length_filter_map_eq {α β : Type} (f : α → β) (p : β → Bool) :
    ∀ l : List α,
      ((l.map f).filter p).length = (l.filter (fun a => p (f a))).length := by
  intro l
  induction l with
  | nil => rfl
  | cons hd tl ih =>
      by_cases h : p (f hd) = true <;> simp [List.filter_cons, h, ih]

theorem loadTask_save (m : TaskManager) (now' : Nat) (p : Nat × Task)
    (hmem : p.2.owner.user_id ∈ m.users.map Prod.fst) :
    loadTask now' (loadUsers now' m.save_to_file)
      (p.1, { title := p.2.title, description := p.2.description,
              priority := p.2.priority, owner_id := p.2.owner.user_id,
              status := some p.2.status, due_date := serDue p.2.due_date })
      = some (reloadTask (loadUsers now' m.save_to_file) now' p) := by
  obtain ⟨u0, hu0⟩ := Option.isSome_iff_exists.mp
    ((dictGet_isSome_iff m.users p.2.owner.user_id).mpr hmem)
  have hU := dictGet_loadUsers_save m now' p.2.owner.user_id
  rw [hu0] at hU
  simp only [Option.map_some'] at hU
  simp [loadTask, reloadTask, hU, loadDue_serDue]

/-- C1: the save/load round-trip.  For every store whose task keys are
distinct and whose tasks all reference a stored user (true of every store the
operations build), `save_to_file` followed by `load_from_file` into any
store yields: an identical `report()`, users agreeing on name and email
key-for-key, and tasks agreeing key-for-key on title, description, priority,
status, owner linkage (the owner's user id) and due date (to timestamp
precision, `isoformat`/`fromisoformat` being exact inverses). -/
theorem save_load_roundtrip (m m0 : TaskManager) (now' : Nat)
    (hnd : (m.tasks.map Prod.fst).Nodup)
    (hcon : ∀ p ∈ m.tasks, p.2.owner.user_id ∈ m.users.map Prod.fst) :
    (m0.load_from_file now' m.save_to_file).report = m.report ∧
    (m0.load_from_file now' m.save_to_file).users.map
        (fun p => (p.1, userView p.2))
      = m.users.map (fun p => (p.1, userView p.2)) ∧
    (m0.load_from_file now' m.save_to_file).tasks.map
        (fun p => (p.1, taskView p.2))
      = m.tasks.map (fun p => (p.1, taskView p.2)) := by
  have hkeys : m.save_to_file.tasks.map Prod.fst = m.tasks.map Prod.fst := by
    show (m.tasks.map _).map Prod.fst = _
    rw [List.map_map]
    rfl
  have hndf : (m.save_to_file.tasks.map Prod.fst).Nodup := by
    rw [hkeys]
    exact hnd
  have htasks : (m0.load_from_file now' m.save_to_file).tasks
      = m.tasks.map (reloadTask (loadUsers now' m.save_to_file) now') := by
    show loadTasksGo now' (loadUsers now' m.save_to_file) [] m.save_to_file.tasks
      = _
    rw [loadTasksGo_eq_filterMap now' _ m.save_to_file.tasks []
        (by intro k _ hk; simp at hk) hndf, List.nil_append]
    have hgen : ∀ l : List (Nat × Task),
        (∀ p ∈ l, p.2.owner.user_id ∈ m.users.map Prod.fst) →
        (l.map (fun p => (p.1,
            ({ title := p.2.title, description := p.2.description,
               priority := p.2.priority, owner_id := p.2.owner.user_id,
               status := some p.2.status,
               due_date := serDue p.2.due_date } : TaskRec)))).filterMap
            (loadTask now' (loadUsers now' m.save_to_file))
          = l.map (reloadTask (loadUsers now' m.save_to_file) now') := by
      intro l
      induction l with
      | nil => intro _; rfl
      | cons hd tl ih =>
          intro hl
          simp only [List.map_cons]
          rw [List.filterMap_cons_some
              (loadTask_save m now' hd (hl hd (List.mem_cons_self _ _))),
            ih (fun p hp => hl p (List.mem_cons_of_mem _ hp))]
    exact hgen m.tasks hcon
  refine ⟨?_, ?_, ?_⟩
  · simp only [TaskManager.report, Report.mk.injEq]
    rw [htasks]
    refine ⟨?_, ?_, ?_⟩
    · rw [List.length_map]
    · rw [length_filter_map_eq]
      rfl
    · rw [List.length_map, length_filter_map_eq]
      rfl
  · rw [show (m0.load_from_file now' m.save_to_file).users
        = loadUsers now' m.save_to_file from rfl,
      loadUsers_save, List.map_map]
    rfl
  · rw [htasks, List.map_map]
    refine List.map_congr_left ?_
    intro p hp
    obtain ⟨u0, hu0⟩ := Option.isSome_iff_exists.mp
      ((dictGet_isSome_iff m.users p.2.owner.user_id).mpr (hcon p hp))
    have hU := dictGet_loadUsers_save m now' p.2.owner.user_id
    rw [hu0] at hU
    simp only [Option.map_some'] at hU
    simp [reloadTask, taskView, hU, Function.comp]

/-- Witness for C1: the concrete store `mW` (one user, one task owned by
that user) survives the save/load round-trip with an identical report and
identical user and task views. -/
theorem save_load_roundtrip_witness :
    (TaskManager.init.load_from_file 5 mW.save_to_file).report = mW.report ∧
    (TaskManager.init.load_from_file 5 mW.save_to_file).users.map
        (fun p => (p.1, userView p.2))
      = mW.users.map (fun p => (p.1, userView p.2)) ∧
    (TaskManager.init.load_from_file 5 mW.save_to_file).tasks.map
        (fun p => (p.1, taskView p.2))
      = mW.tasks.map (fun p => (p.1, taskView p.2)) :=
  save_load_roundtrip mW TaskManager.init 5 (by decide) (by decide)

end PyTask
